import Mathlib

/-!
Verification of the Operations-Research Toolkit's LP/ILP core.

This file embeds the Linear Programming tableau engine
(`src/methods/simplex/script.js`) and the Branch-and-Bound integer search
(`src/methods/branch-and-bound/script.js`) as executable Lean definitions
over ℚ, and proves or refutes the specification's claims about them.
JavaScript numbers are modelled as exact rationals; the source's literal
tolerances (1e-10, 1e-6) and the Big-M constant (10^6) are kept as the
corresponding rational constants.  JavaScript arrays are modelled as
lists, with out-of-range reads returning the default 0 via `List.getD`
(the algorithms only read in range).

Definitions that appear verbatim in both source files (the constraint
record, the variable counting, the row construction, the Big-M
elimination, the minimum-ratio test, the pivot operation, the leftover
artificial-variable check, and 4-decimal rounding) are shared at the
`ORToolkit` level; everything specific to one file lives in the
`Simplex` or `BnB` namespace.
-/

namespace ORToolkit

/-- The engine's numeric tolerance 1e-10. -/
def tol : ℚ := 1 / 10000000000

/-- Branch-and-Bound's integrality and pruning tolerance 1e-6. -/
def tol6 : ℚ := 1 / 1000000

/-- Big-M constant (simplex/script.js line 28, branch-and-bound/script.js
line 161). -/
def bigM : ℚ := 1000000

/-- A constraint relation: `<=`, `>=` or `=`. -/
inductive Rel
  | le
  | ge
  | eq
deriving DecidableEq, Repr

/-- A linear constraint as collected by both modules (collectData in both
files): per-variable coefficients, a relation, and a right-hand side. -/
structure Constraint where
  coeffs : List ℚ
  rel : Rel
  rhs : ℚ
deriving DecidableEq, Repr

/-- Objective sense. -/
inductive ObjType
  | max
  | min
deriving DecidableEq, Repr

/-- Count of slack variables: one per `<=` constraint
(simplex/script.js lines 130-138, branch-and-bound/script.js
lines 151-159). -/
def slackCount (cs : List Constraint) : ℕ :=
  (cs.filter fun c => c.rel == Rel.le).length

/-- Count of surplus variables: one per `>=` constraint. -/
def surplusCount (cs : List Constraint) : ℕ :=
  (cs.filter fun c => c.rel == Rel.ge).length

/-- Count of artificial variables: one per `>=` and per `=` constraint. -/
def artificialCount (cs : List Constraint) : ℕ :=
  (cs.filter fun c => c.rel == Rel.ge || c.rel == Rel.eq).length

/-- One tableau row for a constraint whose first extra column is
`varIndex` (simplex/script.js lines 173-200, branch-and-bound/script.js
lines 169-197, identical code): the decision-variable coefficients in
columns below `numVars`, the slack / surplus+artificial / artificial
entries at the running index, and the right-hand side in the last
column.  Later writes in the source win, hence the order of the tests. -/
def constraintRow (numVars totalVars varIndex : ℕ) (c : Constraint) : List ℚ :=
  (List.range (totalVars + 1)).map fun j =>
    if j = totalVars then c.rhs
    else
      match c.rel with
      | Rel.le =>
          if j = varIndex then 1
          else if j < numVars then c.coeffs.getD j 0 else 0
      | Rel.ge =>
          if j = varIndex then -1
          else if j = varIndex + 1 then 1
          else if j < numVars then c.coeffs.getD j 0 else 0
      | Rel.eq =>
          if j = varIndex then 1
          else if j < numVars then c.coeffs.getD j 0 else 0

/-- Big-M elimination of the initial artificial basic variables from the
Z-row (simplex/script.js lines 212-219, branch-and-bound/script.js
lines 208-214, identical code): for every row whose basic variable is
artificial, subtract `M ×` that row from the Z-row. -/
def eliminateArtificials (tableau : List (List ℚ)) (basicVars artIdx : List ℕ)
    (totalVars : ℕ) (zRow : List ℚ) : List ℚ :=
  (List.range basicVars.length).foldl
    (fun z i =>
      if artIdx.contains (basicVars.getD i 0) then
        (List.range (totalVars + 1)).map fun j =>
          z.getD j 0 - bigM * (tableau.getD i []).getD j 0
      else z)
    zRow

/-- `findPivotRow`, the minimum-ratio test (simplex/script.js
lines 285-307; inlined identically in branch-and-bound/script.js
lines 233-243): over rows with pivot-column coefficient above `1e-10`,
require a non-negative ratio strictly below the running minimum
(started at infinity, modelled as `none`); `none` means unbounded. -/
def findPivotRow (tableau : List (List ℚ)) (pivotCol totalVars : ℕ) : Option ℕ :=
  ((List.range tableau.length).foldl
    (fun (st : Option ℚ × Option ℕ) i =>
      let rhs := (tableau.getD i []).getD totalVars 0
      let coeff := (tableau.getD i []).getD pivotCol 0
      if coeff > tol then
        let r := rhs / coeff
        if decide (0 ≤ r) && (match st.1 with
          | none => true
          | some m => decide (r < m)) then (some r, some i) else st
      else st)
    ((none : Option ℚ), (none : Option ℕ))).2

/-- `pivot` (simplex/script.js lines 353-375; inlined identically in
branch-and-bound/script.js lines 249-268): normalize the pivot row by
the pivot element, subtract `factor ×` the normalized pivot row from
every other row and (with factor `zRow[pivotCol]`) from the Z-row, and
record the entering column as the new basic variable of the pivot
row. -/
def pivot (tableau : List (List ℚ)) (zRow : List ℚ) (pivotRow pivotCol : ℕ)
    (basicVars : List ℕ) (totalVars : ℕ) :
    List (List ℚ) × List ℚ × List ℕ :=
  let p := (tableau.getD pivotRow []).getD pivotCol 0
  let newPivotRow := (List.range (totalVars + 1)).map fun j =>
    (tableau.getD pivotRow []).getD j 0 / p
  let newTab := (List.range tableau.length).map fun i =>
    if i = pivotRow then newPivotRow
    else
      let row := tableau.getD i []
      let factor := row.getD pivotCol 0
      (List.range (totalVars + 1)).map fun j =>
        row.getD j 0 - factor * newPivotRow.getD j 0
  let zf := zRow.getD pivotCol 0
  let newZ := (List.range (totalVars + 1)).map fun j =>
    zRow.getD j 0 - zf * newPivotRow.getD j 0
  (newTab, newZ, basicVars.set pivotRow pivotCol)

/-- The post-optimality feasibility check (simplex/script.js
lines 447-456; branch-and-bound/script.js lines 271-277, identical
predicate): some row whose basic variable is artificial has a
right-hand side of absolute value above `1e-10`. -/
def hasArtificialInBasis (tableau : List (List ℚ)) (basicVars artIdx : List ℕ)
    (totalVars : ℕ) : Bool :=
  (List.range basicVars.length).any fun i =>
    artIdx.contains (basicVars.getD i 0) &&
      decide (|(tableau.getD i []).getD totalVars 0| > tol)

/-- `Math.round(q * 10000) / 10000`, the 4-decimal rounding applied to
displayed and extracted values in both files (simplex/script.js
line 564, branch-and-bound/script.js lines 344-345 and 366-367).
`Math.round` rounds half towards `+∞`, as does Mathlib's `round`. -/
def round4 (q : ℚ) : ℚ :=
  round (q * 10000) / 10000

namespace Simplex

/-- Column indices of the artificial variables, accumulated while
walking the constraints with a running first-free-column index: `<=`
consumes one column, `>=` consumes two (surplus then artificial, the
artificial recorded), `=` consumes one recorded artificial column
(buildTableau lines 151-167, where the indices are read off
`varNames`). -/
def artIndicesFrom (cs : List Constraint) (idx : ℕ) : List ℕ :=
  match cs with
  | [] => []
  | c :: rest =>
    match c.rel with
    | Rel.le => artIndicesFrom rest (idx + 1)
    | Rel.ge => (idx + 1) :: artIndicesFrom rest (idx + 2)
    | Rel.eq => idx :: artIndicesFrom rest (idx + 1)

/-- Build all tableau rows and the initial basic-variable vector,
keeping the running first-free-column index (buildTableau
lines 169-200): for `<=` the slack column becomes basic, for `>=` the
artificial column (second of the two) becomes basic, for `=` the
artificial column becomes basic. -/
def buildRows (numVars totalVars : ℕ) (cs : List Constraint) (varIndex : ℕ) :
    List (List ℚ) × List ℕ :=
  match cs with
  | [] => ([], [])
  | c :: rest =>
    let row := constraintRow numVars totalVars varIndex c
    match c.rel with
    | Rel.le =>
      let tb := buildRows numVars totalVars rest (varIndex + 1)
      (row :: tb.1, varIndex :: tb.2)
    | Rel.ge =>
      let tb := buildRows numVars totalVars rest (varIndex + 2)
      (row :: tb.1, (varIndex + 1) :: tb.2)
    | Rel.eq =>
      let tb := buildRows numVars totalVars rest (varIndex + 1)
      (row :: tb.1, varIndex :: tb.2)

/-- Initial Z-row before Big-M elimination (buildTableau lines 202-210):
negated objective coefficients for decision variables, `M` on every
artificial column, 0 elsewhere (including the last, value, entry). -/
def zRowInit (numVars totalVars : ℕ) (objCoeffs : List ℚ) (artIdx : List ℕ) : List ℚ :=
  (List.range (totalVars + 1)).map fun j =>
    if artIdx.contains j then bigM
    else if j < numVars then -(objCoeffs.getD j 0)
    else 0

/-- The state returned by `buildTableau` (lines 221-230), without the
purely presentational `varNames`/`methodsUsed` fields. -/
structure TableauState where
  tableau : List (List ℚ)
  zRow : List ℚ
  basicVars : List ℕ
  artIdx : List ℕ
  wasMinimization : Bool
  totalVars : ℕ
deriving DecidableEq, Repr

/-- `buildTableau` (simplex/script.js lines 118-231). -/
def buildTableau (numVars : ℕ) (objType : ObjType) (objCoeffs : List ℚ)
    (constraints : List Constraint) : TableauState :=
  let wasMin := objType == ObjType.min
  let oc := if wasMin then objCoeffs.map (fun c => -c) else objCoeffs
  let totalVars := numVars + slackCount constraints + surplusCount constraints +
    artificialCount constraints
  let artIdx := artIndicesFrom constraints numVars
  let tb := buildRows numVars totalVars constraints numVars
  let z0 := zRowInit numVars totalVars oc artIdx
  let zRow := eliminateArtificials tb.1 tb.2 artIdx totalVars z0
  ⟨tb.1, zRow, tb.2, artIdx, wasMin, totalVars⟩

/-- `isOptimal` (lines 240-245): no Z-row entry below `-1e-10`. -/
def isOptimal (zRow : List ℚ) (totalVars : ℕ) : Bool :=
  (List.range totalVars).all fun j => !decide (zRow.getD j 0 < -tol)

/-- `hasNegativeRHS` (lines 247-252): some row's last entry below
`-1e-10`. -/
def hasNegativeRHS (tableau : List (List ℚ)) : Bool :=
  tableau.any fun row => decide (row.getD (row.length - 1) 0 < -tol)

/-- `findPivotColumn` (lines 262-274): index of the most negative Z-row
entry, first index winning under a strict `<` against the running
minimum started at 0; `none` when no entry is negative. -/
def findPivotColumn (zRow : List ℚ) (totalVars : ℕ) : Option ℕ :=
  ((List.range totalVars).foldl
    (fun st j => if zRow.getD j 0 < st.1 then (zRow.getD j 0, some j) else st)
    ((0 : ℚ), (none : Option ℕ))).2

/-- `findDualPivotRow` (lines 309-322): row with the most negative
right-hand side, running minimum started at 0. -/
def findDualPivotRow (tableau : List (List ℚ)) (totalVars : ℕ) : Option ℕ :=
  ((List.range tableau.length).foldl
    (fun st i =>
      let rhs := (tableau.getD i []).getD totalVars 0
      if rhs < st.1 then (rhs, some i) else st)
    ((0 : ℚ), (none : Option ℕ))).2

/-- `findDualPivotCol` (lines 324-340): among columns with coefficient
below `-1e-10` in the pivot row, the one minimising `|zRow[j] / a[i][j]|`
under a strict `<`; `none` means infeasible. -/
def findDualPivotCol (tableau : List (List ℚ)) (zRow : List ℚ)
    (pivotRow totalVars : ℕ) : Option ℕ :=
  ((List.range totalVars).foldl
    (fun (st : Option ℚ × Option ℕ) j =>
      let aij := (tableau.getD pivotRow []).getD j 0
      if aij < -tol then
        let r := |zRow.getD j 0 / aij|
        if (match st.1 with
          | none => true
          | some m => decide (r < m)) then (some r, some j) else st
      else st)
    ((none : Option ℚ), (none : Option ℕ))).2

/-- How solve's iteration loop exited: by the optimality branch (with or
without a leftover artificial basic variable), by the dual-simplex
infeasibility branch, by the unbounded branch, or by exhausting the
100-iteration cap. -/
inductive ExitKind
  | optimal
  | infeasibleArt
  | infeasibleDual
  | unbounded
  | fuelOut
deriving DecidableEq, Repr

/-- The mutable state of solve's iteration loop. -/
structure LoopState where
  tableau : List (List ℚ)
  zRow : List ℚ
  basicVars : List ℕ
  useDual : Bool
deriving DecidableEq, Repr

/-- The iteration loop of `solve` (lines 410-526), with the remaining
iteration budget as explicit fuel.  The dual branch runs while
`useDualSimplex` is set and some right-hand side is negative (falling
back to primal, an iteration later, when no dual pivot row exists);
otherwise the primal branch checks optimality (and then leftover
artificial basic variables), picks the entering and leaving variables,
and pivots. -/
def solveLoop (artIdx : List ℕ) (totalVars : ℕ) :
    ℕ → LoopState → ExitKind × LoopState
  | 0, s => (ExitKind.fuelOut, s)
  | fuel + 1, s =>
    if s.useDual && hasNegativeRHS s.tableau then
      match findDualPivotRow s.tableau totalVars with
      | none => solveLoop artIdx totalVars fuel ⟨s.tableau, s.zRow, s.basicVars, false⟩
      | some pr =>
        match findDualPivotCol s.tableau s.zRow pr totalVars with
        | none => (ExitKind.infeasibleDual, s)
        | some pc =>
          let t := pivot s.tableau s.zRow pr pc s.basicVars totalVars
          solveLoop artIdx totalVars fuel ⟨t.1, t.2.1, t.2.2, s.useDual⟩
    else
      if isOptimal s.zRow totalVars then
        if hasArtificialInBasis s.tableau s.basicVars artIdx totalVars then
          (ExitKind.infeasibleArt, s)
        else
          (ExitKind.optimal, s)
      else
        match findPivotColumn s.zRow totalVars with
        | none => (ExitKind.optimal, s)
        | some pc =>
          match findPivotRow s.tableau pc totalVars with
          | none => (ExitKind.unbounded, s)
          | some pr =>
            let t := pivot s.tableau s.zRow pr pc s.basicVars totalVars
            solveLoop artIdx totalVars fuel ⟨t.1, t.2.1, t.2.2, s.useDual⟩

/-- `extractSolution` (lines 553-569): start from all-zero decision
values; for every row whose basic variable is a decision variable (its
name starts with `x`, i.e. its index is below `numVars`), record that
row's right-hand side rounded to 4 decimals. -/
def extractSolution (tableau : List (List ℚ)) (basicVars : List ℕ)
    (totalVars numVars : ℕ) : List ℚ :=
  (List.range basicVars.length).foldl
    (fun sol i =>
      let v := basicVars.getD i 0
      if v < numVars then
        sol.set v (round4 ((tableau.getD i []).getD totalVars 0))
      else sol)
    (List.replicate numVars 0)

/-- The final outcome displayed by `displayResults` (lines 660-689):
the last step's type maps `infeasible` and `unbounded` to the matching
banners and everything else — including a loop that merely ran out of
iterations — to the Optimal banner with the extracted solution. -/
inductive SolveResult
  | optimal (sol : List ℚ) (z : ℚ)
  | infeasible
  | unbounded
deriving DecidableEq, Repr

/-- Everything `solve` leaves behind: how the loop exited, the final
tableau state, and the displayed result. -/
structure SolveOutput where
  exit : ExitKind
  final : LoopState
  result : SolveResult
deriving DecidableEq, Repr

/-- `solve` (lines 383-547): build the tableau, choose dual simplex when
some initial right-hand side is negative, run the loop with the
100-iteration cap, extract the solution, sign-correct the objective for
a minimization, and map the loop's last step to the displayed result
(anything other than the infeasible/unbounded steps is shown as
Optimal). -/
def solve (numVars : ℕ) (objType : ObjType) (objCoeffs : List ℚ)
    (constraints : List Constraint) : SolveOutput :=
  let st := buildTableau numVars objType objCoeffs constraints
  let s0 : LoopState := ⟨st.tableau, st.zRow, st.basicVars, hasNegativeRHS st.tableau⟩
  let es := solveLoop st.artIdx st.totalVars 100 s0
  let s := es.2
  let sol := extractSolution s.tableau s.basicVars st.totalVars numVars
  let z := s.zRow.getD st.totalVars 0
  let finalZ := if st.wasMinimization then -z else z
  let res :=
    match es.1 with
    | ExitKind.infeasibleArt => SolveResult.infeasible
    | ExitKind.infeasibleDual => SolveResult.infeasible
    | ExitKind.unbounded => SolveResult.unbounded
    | ExitKind.optimal => SolveResult.optimal sol finalZ
    | ExitKind.fuelOut => SolveResult.optimal sol finalZ
  ⟨es.1, s, res⟩

/-- What `analyzeChangeCj` can report: the current basis remains optimal
with the stated objective value, re-optimization is required (a reduced
cost went negative), or a blanket recommendation to re-solve. -/
inductive WhatIfOutcome
  | basisOptimal (z : ℚ)
  | reoptRequired
  | resolveRecommended
deriving DecidableEq, Repr

/-- `analyzeChangeCj` (lines 863-904): for a basic variable the code
always recommends a re-solve; for a non-basic variable it adds the
delta to the stored reduced cost and reports "basis remains optimal,
Z unchanged" when the new reduced cost is at least `-1e-10`, otherwise
that re-optimization is required. -/
def analyzeChangeCj (varIdx : ℕ) (newValue originalValue : ℚ)
    (lastOptimalBasicVars : List ℕ) (lastOptimalZRow : List ℚ)
    (lastFinalZ : ℚ) : WhatIfOutcome :=
  let delta := newValue - originalValue
  if lastOptimalBasicVars.any (fun bv => bv == varIdx) then
    WhatIfOutcome.resolveRecommended
  else
    let currentReducedCost := lastOptimalZRow.getD varIdx 0
    let newReducedCost := currentReducedCost + delta
    if -tol ≤ newReducedCost then WhatIfOutcome.basisOptimal lastFinalZ
    else WhatIfOutcome.reoptRequired

end Simplex

namespace BnB

/-- The result of `solveLP` (branch-and-bound/script.js lines 148-290):
`{feasible: false, unbounded: true}`, `{feasible: false}`, or
`{feasible: true, solution, zValue}`. -/
inductive LPResult
  | infeasible
  | unbounded
  | feasible (sol : List ℚ) (z : ℚ)
deriving DecidableEq, Repr

/-- Rows, basic variables and artificial-variable indices, built in a
single pass with a running first-free-column index (solveLP
lines 165-197): `<=` makes the slack basic; `>=` adds a surplus column
then an artificial column that is recorded and made basic; `=` adds a
recorded, basic artificial column. -/
def buildRowsArt (numVars totalVars : ℕ) (cs : List Constraint) (varIndex : ℕ) :
    List (List ℚ) × List ℕ × List ℕ :=
  match cs with
  | [] => ([], [], [])
  | c :: rest =>
    let row := constraintRow numVars totalVars varIndex c
    match c.rel with
    | Rel.le =>
      let tba := buildRowsArt numVars totalVars rest (varIndex + 1)
      (row :: tba.1, varIndex :: tba.2.1, tba.2.2)
    | Rel.ge =>
      let tba := buildRowsArt numVars totalVars rest (varIndex + 2)
      (row :: tba.1, (varIndex + 1) :: tba.2.1, (varIndex + 1) :: tba.2.2)
    | Rel.eq =>
      let tba := buildRowsArt numVars totalVars rest (varIndex + 1)
      (row :: tba.1, varIndex :: tba.2.1, varIndex :: tba.2.2)

/-- Initial Z-row of `solveLP` before Big-M elimination (lines 199-206):
`isMaximization ? -c : c` on decision columns, `M` on artificial
columns, 0 elsewhere. -/
def lpZRowInit (numVars totalVars : ℕ) (objCoeffs : List ℚ) (isMax : Bool)
    (artIdx : List ℕ) : List ℚ :=
  (List.range (totalVars + 1)).map fun j =>
    if artIdx.contains j then bigM
    else if j < numVars then
      (if isMax then -(objCoeffs.getD j 0) else objCoeffs.getD j 0)
    else 0

/-- Entering-variable choice of `solveLP` (lines 222-231): most negative
Z-row entry, with the running minimum started at `-1e-10` (unlike the
engine's `findPivotColumn`, which starts at 0). -/
def lpFindPivotCol (zRow : List ℚ) (totalVars : ℕ) : Option ℕ :=
  ((List.range totalVars).foldl
    (fun st j => if zRow.getD j 0 < st.1 then (zRow.getD j 0, some j) else st)
    ((-tol : ℚ), (none : Option ℕ))).2

/-- How `solveLP`'s iteration loop ended: by finding no pivot column
(`break`), by the unbounded early return, or by the 100-iteration cap. -/
inductive LoopExit
  | brk
  | unbounded
  | fuelOut
deriving DecidableEq, Repr

/-- The mutable state of `solveLP`'s iteration loop. -/
structure LPState where
  tableau : List (List ℚ)
  zRow : List ℚ
  basicVars : List ℕ
deriving DecidableEq, Repr

/-- The iteration loop of `solveLP` (lines 216-269): purely primal —
pick the entering column, run the minimum-ratio test (returning
unbounded if it fails), pivot, repeat up to the fuel bound. -/
def lpLoop (totalVars : ℕ) : ℕ → LPState → LoopExit × LPState
  | 0, s => (LoopExit.fuelOut, s)
  | fuel + 1, s =>
    match lpFindPivotCol s.zRow totalVars with
    | none => (LoopExit.brk, s)
    | some pc =>
      match findPivotRow s.tableau pc totalVars with
      | none => (LoopExit.unbounded, s)
      | some pr =>
        let t := pivot s.tableau s.zRow pr pc s.basicVars totalVars
        lpLoop totalVars fuel ⟨t.1, t.2.1, t.2.2⟩

/-- Solution extraction of `solveLP` (lines 279-284): like the engine's
`extractSolution` but without any rounding. -/
def lpExtract (tableau : List (List ℚ)) (basicVars : List ℕ)
    (totalVars numVars : ℕ) : List ℚ :=
  (List.range basicVars.length).foldl
    (fun sol i =>
      let v := basicVars.getD i 0
      if v < numVars then
        sol.set v ((tableau.getD i []).getD totalVars 0)
      else sol)
    (List.replicate numVars 0)

/-- `solveLP` (branch-and-bound/script.js lines 148-290): concatenate
the extra branching constraints, build the tableau and Big-M Z-row, run
the primal loop with the 100-iteration cap, return unbounded if the
ratio test ever fails, infeasible if an artificial variable remains
basic with a non-zero value, and otherwise the extracted solution with
the sign-corrected objective value. -/
def solveLP (numVars : ℕ) (isMax : Bool) (objCoeffs : List ℚ)
    (constraints extraConstraints : List Constraint) : LPResult :=
  let all := constraints ++ extraConstraints
  let totalVars := numVars + slackCount all + surplusCount all + artificialCount all
  let rba := buildRowsArt numVars totalVars all numVars
  let z0 := lpZRowInit numVars totalVars objCoeffs isMax rba.2.2
  let zRow := eliminateArtificials rba.1 rba.2.1 rba.2.2 totalVars z0
  let r := lpLoop totalVars 100 ⟨rba.1, zRow, rba.2.1⟩
  match r.1 with
  | LoopExit.unbounded => LPResult.unbounded
  | _ =>
    if hasArtificialInBasis r.2.tableau r.2.basicVars rba.2.2 totalVars then
      LPResult.infeasible
    else
      let sol := lpExtract r.2.tableau r.2.basicVars totalVars numVars
      let z := r.2.zRow.getD totalVars 0
      LPResult.feasible sol (if isMax then z else -z)

/-- `getFractionalVar` (lines 298-307): the first integer-designated
variable, in the order of `integerVars`, whose value has fractional
part strictly between `1e-6` and `1 - 1e-6`. -/
def getFractionalVar (integerVars : List ℕ) (solution : List ℚ) :
    Option (ℕ × ℚ) :=
  integerVars.findSome? fun j =>
    let v := solution.getD j 0
    let frac := v - ⌊v⌋
    if decide (frac > tol6) && decide (frac < 1 - tol6) then some (j, v)
    else none

/-- The status a processed node is recorded with (lines 337-378). -/
inductive Status
  | infeasibleNode
  | pruned
  | integerFound
  | branched
deriving DecidableEq, Repr

/-- The message recorded alongside a node's status; the strings
`'Unbounded'`, `'Infeasible'`, the pruning message, and
`'Integer solution found'` of the source, as symbolic values. -/
inductive NodeMsg
  | unboundedLP
  | infeasibleLP
  | prunedWorse
  | integerFound
deriving DecidableEq, Repr

/-- A queued subproblem (lines 323, 397-411): identifier, accumulated
extra constraints, depth, parent identifier, and the branch that
created it (variable, direction, bound) — `branchInfo` in the source,
where it is a display string such as `x2 ≤ 3`. -/
structure Node where
  id : ℕ
  extraConstraints : List Constraint
  depth : ℕ
  parent : Option ℕ
  branchInfo : Option (ℕ × Rel × ℤ)
deriving DecidableEq, Repr

/-- The per-node record pushed onto `nodes` for visualization
(lines 329-378). -/
structure NodeInfo where
  id : ℕ
  depth : ℕ
  parent : Option ℕ
  branchInfo : Option (ℕ × Rel × ℤ)
  extraConstraints : List Constraint
  status : Status
  msg : Option NodeMsg
  solution : Option (List ℚ)
  zValue : Option ℚ
  fractionalVar : Option (ℕ × ℚ)
deriving DecidableEq, Repr

/-- The search's mutable state: the incumbent (`bestSolution`/`bestZ`,
present only after an integer-feasible node, holding 4-decimal-rounded
values as in the source), the node trace, the next fresh node id, and
the FIFO queue. -/
structure SearchState where
  best : Option (List ℚ × ℚ)
  nodes : List NodeInfo
  nextId : ℕ
  queue : List Node
deriving DecidableEq, Repr

/-- The pruning test (lines 347-351): with an incumbent present, a
maximization node is dominated when `z ≤ bestZ + 1e-6`, a minimization
node when `z ≥ bestZ - 1e-6`.  Without an incumbent (`bestZ = ±∞` in
the source) the test never fires. -/
def pruneCheck (isMax : Bool) (best : Option (List ℚ × ℚ)) (z : ℚ) : Bool :=
  match best with
  | none => false
  | some b => if isMax then decide (z ≤ b.2 + tol6) else decide (b.2 - tol6 ≤ z)

/-- The incumbent-improvement test (lines 361-363): `z > bestZ` for
maximization, `z < bestZ` for minimization; with no incumbent
(`bestZ = ±∞`) any finite value improves. -/
def betterCheck (isMax : Bool) (best : Option (List ℚ × ℚ)) (z : ℚ) : Bool :=
  match best with
  | none => true
  | some b => if isMax then decide (b.2 < z) else decide (z < b.2)

/-- The body of `branchAndBound`'s while loop for one dequeued node
(lines 326-412): solve the LP relaxation; record infeasible/unbounded
nodes; prune against the incumbent; if no fractional
integer-designated variable remains, record an integer node and update
the incumbent when strictly better; otherwise branch on the first
fractional variable, appending `x_i ≤ ⌊v⌋` and `x_i ≥ ⌈v⌉` children to
the back of the queue. -/
def processNode (numVars : ℕ) (isMax : Bool) (integerVars : List ℕ)
    (objCoeffs : List ℚ) (constraints : List Constraint)
    (node : Node) (rest : List Node) (best : Option (List ℚ × ℚ))
    (nodes : List NodeInfo) (nextId : ℕ) : SearchState :=
  match solveLP numVars isMax objCoeffs constraints node.extraConstraints with
  | LPResult.unbounded =>
    ⟨best, nodes ++ [⟨node.id, node.depth, node.parent, node.branchInfo,
      node.extraConstraints, Status.infeasibleNode, some NodeMsg.unboundedLP,
      none, none, none⟩], nextId, rest⟩
  | LPResult.infeasible =>
    ⟨best, nodes ++ [⟨node.id, node.depth, node.parent, node.branchInfo,
      node.extraConstraints, Status.infeasibleNode, some NodeMsg.infeasibleLP,
      none, none, none⟩], nextId, rest⟩
  | LPResult.feasible sol z =>
    let dispSol := sol.map round4
    let dispZ := round4 z
    if pruneCheck isMax best z then
      ⟨best, nodes ++ [⟨node.id, node.depth, node.parent, node.branchInfo,
        node.extraConstraints, Status.pruned, some NodeMsg.prunedWorse,
        some dispSol, some dispZ, none⟩], nextId, rest⟩
    else
      match getFractionalVar integerVars sol with
      | none =>
        let best' := if betterCheck isMax best z then some (dispSol, dispZ) else best
        ⟨best', nodes ++ [⟨node.id, node.depth, node.parent, node.branchInfo,
          node.extraConstraints, Status.integerFound, some NodeMsg.integerFound,
          some dispSol, some dispZ, none⟩], nextId, rest⟩
      | some fv =>
        let floorVal : ℤ := ⌊fv.2⌋
        let ceilVal : ℤ := ⌈fv.2⌉
        let leftCon : Constraint :=
          ⟨(List.replicate numVars (0 : ℚ)).set fv.1 1, Rel.le, (floorVal : ℚ)⟩
        let rightCon : Constraint :=
          ⟨(List.replicate numVars (0 : ℚ)).set fv.1 1, Rel.ge, (ceilVal : ℚ)⟩
        let leftNode : Node := ⟨nextId, node.extraConstraints ++ [leftCon],
          node.depth + 1, some node.id, some (fv.1, Rel.le, floorVal)⟩
        let rightNode : Node := ⟨nextId + 1, node.extraConstraints ++ [rightCon],
          node.depth + 1, some node.id, some (fv.1, Rel.ge, ceilVal)⟩
        ⟨best, nodes ++ [⟨node.id, node.depth, node.parent, node.branchInfo,
          node.extraConstraints, Status.branched, none,
          some dispSol, some dispZ, some fv⟩], nextId + 2,
          rest ++ [leftNode, rightNode]⟩

/-- The while loop of `branchAndBound` (lines 325-412), with explicit
fuel: dequeue the front node and process it until the queue empties. -/
def bnbLoop (numVars : ℕ) (isMax : Bool) (integerVars : List ℕ)
    (objCoeffs : List ℚ) (constraints : List Constraint) :
    ℕ → SearchState → SearchState
  | 0, s => s
  | fuel + 1, s =>
    match s.queue with
    | [] => s
    | node :: rest =>
      bnbLoop numVars isMax integerVars objCoeffs constraints fuel
        (processNode numVars isMax integerVars objCoeffs constraints
          node rest s.best s.nodes s.nextId)

/-- What `branchAndBound` returns (line 414). -/
structure BnBOutput where
  bestSolution : Option (List ℚ)
  bestZ : Option ℚ
  nodes : List NodeInfo
deriving DecidableEq, Repr

/-- `branchAndBound` (lines 317-415): start from the single root node
(id 0, no extra constraints) with no incumbent, run the FIFO loop, and
return the incumbent and the node trace.  The source's
`bestZ = ±Infinity` with `bestSolution = null` is modelled as `none`. -/
def branchAndBound (numVars : ℕ) (isMax : Bool) (integerVars : List ℕ)
    (objCoeffs : List ℚ) (constraints : List Constraint) (fuel : ℕ) : BnBOutput :=
  let s := bnbLoop numVars isMax integerVars objCoeffs constraints fuel
    ⟨none, [], 1, [⟨0, [], 0, none, none⟩]⟩
  ⟨s.best.map Prod.fst, s.best.map Prod.snd, s.nodes⟩

/-- The final banner of `displayResults` (lines 512-531): a null
`bestSolution` is shown as "No Integer Solution" — the display has no
separate unbounded variant — and otherwise the incumbent is shown as
the optimal integer solution. -/
inductive FinalKind
  | noIntegerSolution
  | optimalInteger (sol : List ℚ) (z : ℚ)
deriving DecidableEq, Repr

/-- The map from `branchAndBound`'s output to the displayed banner. -/
def displayFinal (out : BnBOutput) : FinalKind :=
  match out.bestSolution, out.bestZ with
  | some sol, some z => FinalKind.optimalInteger sol z
  | _, _ => FinalKind.noIntegerSolution

end BnB

end ORToolkit

namespace ORToolkit

/-!
## General lemmas about the embedded operations
-/

/-- Entry `i` of a list built as `(List.range n).map f`. -/
theorem getD_range_map {α : Type _} (f : ℕ → α) (n i : ℕ) (d : α) :
    ((List.range n).map f).getD i d = if i < n then f i else d := by
  by_cases h : i < n
  · simp [List.getD_eq_getElem?_getD, List.getElem?_range h, h]
  · have : (List.range n)[i]? = none := by
      simp [List.getElem?_eq_none_iff]
      omega
    simp [List.getD_eq_getElem?_getD, this, h]

/-- `List.set` at a different index leaves a `getD` read unchanged. -/
theorem getD_set_ne {α : Type _} (l : List α) (v j : ℕ) (x d : α) (h : v ≠ j) :
    (l.set v x).getD j d = l.getD j d := by
  simp [List.getD_eq_getElem?_getD, List.getElem?_set, h]

/-- `List.set` at an in-range index is read back by `getD`. -/
theorem getD_set_eq {α : Type _} (l : List α) (v : ℕ) (x d : α) (h : v < l.length) :
    (l.set v x).getD v d = x := by
  simp [List.getD_eq_getElem?_getD, List.getElem?_set, h]

/-- The leftover-artificial check in Bool form is the expected
existential: some row's basic variable is artificial and its right-hand
side exceeds the tolerance in absolute value. -/
theorem hasArtificialInBasis_iff (t : List (List ℚ)) (b artIdx : List ℕ)
    (tv : ℕ) :
    hasArtificialInBasis t b artIdx tv = true ↔
      ∃ i < b.length, b.getD i 0 ∈ artIdx ∧ |(t.getD i []).getD tv 0| > tol := by
  simp [hasArtificialInBasis, List.any_eq_true, List.mem_range]

/-- Row count is preserved by `pivot`. -/
theorem pivot_tableau_length (t : List (List ℚ)) (z : List ℚ) (b : List ℕ)
    (tv pr pc : ℕ) : (pivot t z pr pc b tv).1.length = t.length := by
  simp [pivot]

/-- The basic-variable vector's length is preserved by `pivot`. -/
theorem pivot_basicVars_length (t : List (List ℚ)) (z : List ℚ) (b : List ℕ)
    (tv pr pc : ℕ) : (pivot t z pr pc b tv).2.2.length = b.length := by
  simp [pivot]

/-- The updated basic-variable vector after `pivot`: the entering column
in the pivot row's slot, everything else unchanged. -/
theorem pivot_basicVars_getD (t : List (List ℚ)) (z : List ℚ) (b : List ℕ)
    (tv pr pc k : ℕ) (hk : k < b.length) :
    (pivot t z pr pc b tv).2.2.getD k 0 = if k = pr then pc else b.getD k 0 := by
  simp only [pivot]
  by_cases hkpr : k = pr
  · subst hkpr
    simp [List.getD_eq_getElem?_getD, List.getElem?_set, hk]
  · simp [List.getD_eq_getElem?_getD, List.getElem?_set, hkpr, Ne.symm hkpr]

/-- Entry `(i, col)` of the pivoted tableau: the pivot row is divided by
the pivot element, every other row has `factor ×` the normalized pivot
row subtracted. -/
theorem pivot_tableau_entry (t : List (List ℚ)) (z : List ℚ) (b : List ℕ)
    (tv pr pc : ℕ) (i col : ℕ) (hi : i < t.length) (hcol : col < tv + 1) :
    ((pivot t z pr pc b tv).1.getD i []).getD col 0 =
      (if i = pr then (t.getD pr []).getD col 0 / (t.getD pr []).getD pc 0
       else (t.getD i []).getD col 0 -
         (t.getD i []).getD pc 0 *
           ((t.getD pr []).getD col 0 / (t.getD pr []).getD pc 0)) := by
  simp only [pivot]
  rw [getD_range_map, if_pos hi]
  by_cases hipr : i = pr
  · rw [if_pos hipr, getD_range_map, if_pos hcol, hipr, if_pos rfl]
  · rw [if_neg hipr, getD_range_map, if_pos hcol, getD_range_map, if_pos hcol,
      if_neg hipr]

/-- The extraction fold never changes an entry whose column is not basic
in any processed row. -/
theorem extract_fold_untouched (t : List (List ℚ)) (b : List ℕ) (tv nv j : ℕ) :
    ∀ (L : List ℕ) (acc : List ℚ), (∀ i ∈ L, b.getD i 0 ≠ j) →
      (L.foldl (fun sol i =>
          let v := b.getD i 0
          if v < nv then sol.set v (round4 ((t.getD i []).getD tv 0)) else sol)
        acc).getD j 0 = acc.getD j 0 := by
  intro L
  induction L with
  | nil => intro acc _; rfl
  | cons hd tl ih =>
    intro acc hL
    have hhd : b.getD hd 0 ≠ j := hL hd (List.mem_cons_self hd tl)
    have htl : ∀ i ∈ tl, b.getD i 0 ≠ j := fun i hi => hL i (List.mem_cons_of_mem hd hi)
    simp only [List.foldl_cons]
    rw [ih _ htl]
    by_cases hv : b.getD hd 0 < nv
    · rw [if_pos hv]
      exact getD_set_ne acc (b.getD hd 0) j _ 0 hhd
    · rw [if_neg hv]

/-- After the extraction fold, a column basic in processed row `i` (and
in no other processed row) holds that row's rounded right-hand side. -/
theorem extract_fold_basic (t : List (List ℚ)) (b : List ℕ) (tv nv j i : ℕ)
    (hj : j < nv) (hbij : b.getD i 0 = j) :
    ∀ (L : List ℕ) (acc : List ℚ), acc.length = nv → L.Nodup → i ∈ L →
      (∀ k ∈ L, k ≠ i → b.getD k 0 ≠ j) →
      (L.foldl (fun sol i2 =>
          let v := b.getD i2 0
          if v < nv then sol.set v (round4 ((t.getD i2 []).getD tv 0)) else sol)
        acc).getD j 0 = round4 ((t.getD i []).getD tv 0) := by
  intro L
  induction L with
  | nil => intro acc _ _ hmem; cases hmem
  | cons hd tl ih =>
    intro acc hlen hnd hmem hothers
    simp only [List.foldl_cons]
    rcases List.mem_cons.mp hmem with hhd | htl
    · have hnotin : hd ∉ tl := (List.nodup_cons.mp hnd).1
      have htl2 : ∀ k ∈ tl, b.getD k 0 ≠ j := by
        intro k hk
        refine hothers k (List.mem_cons_of_mem hd hk) ?_
        intro he
        rw [hhd] at he
        exact hnotin (he ▸ hk)
      rw [extract_fold_untouched t b tv nv j tl _ htl2]
      have hbhd : b.getD hd 0 = j := by rw [← hhd]; exact hbij
      rw [hbhd, if_pos hj, hhd]
      exact getD_set_eq acc j _ 0 (by omega)
    · have hhdne : hd ≠ i := by
        intro he
        subst he
        exact (List.nodup_cons.mp hnd).1 htl
      have hbhd : b.getD hd 0 ≠ j := hothers hd (List.mem_cons_self hd tl) hhdne
      have hlen2 : (if b.getD hd 0 < nv then
          acc.set (b.getD hd 0) (round4 ((t.getD hd []).getD tv 0)) else acc).length
          = nv := by
        by_cases hv : b.getD hd 0 < nv
        · rw [if_pos hv, List.length_set]; exact hlen
        · rw [if_neg hv]; exact hlen
      by_cases hv : b.getD hd 0 < nv
      · rw [if_pos hv] at hlen2 ⊢
        exact ih _ hlen2 (List.nodup_cons.mp hnd).2 htl
          (fun k hk hki => hothers k (List.mem_cons_of_mem hd hk) hki)
      · rw [if_neg hv] at hlen2 ⊢
        exact ih _ hlen2 (List.nodup_cons.mp hnd).2 htl
          (fun k hk hki => hothers k (List.mem_cons_of_mem hd hk) hki)

/-- On an optimal exit, the displayed result is the extracted solution
with the sign-corrected Z-row value. -/
theorem solve_result_shape (nv : ℕ) (ot : ObjType) (oc : List ℚ)
    (cs : List Constraint)
    (hexit : (Simplex.solve nv ot oc cs).exit = Simplex.ExitKind.optimal) :
    (Simplex.solve nv ot oc cs).result =
      Simplex.SolveResult.optimal
        (Simplex.extractSolution (Simplex.solve nv ot oc cs).final.tableau
          (Simplex.solve nv ot oc cs).final.basicVars
          (Simplex.buildTableau nv ot oc cs).totalVars nv)
        (if (Simplex.buildTableau nv ot oc cs).wasMinimization then
          -((Simplex.solve nv ot oc cs).final.zRow.getD
            (Simplex.buildTableau nv ot oc cs).totalVars 0)
         else
          (Simplex.solve nv ot oc cs).final.zRow.getD
            (Simplex.buildTableau nv ot oc cs).totalVars 0) := by
  revert hexit
  unfold Simplex.solve
  cases hek : Simplex.solveLoop (Simplex.buildTableau nv ot oc cs).artIdx
      (Simplex.buildTableau nv ot oc cs).totalVars 100
      ⟨(Simplex.buildTableau nv ot oc cs).tableau,
        (Simplex.buildTableau nv ot oc cs).zRow,
        (Simplex.buildTableau nv ot oc cs).basicVars,
        Simplex.hasNegativeRHS (Simplex.buildTableau nv ot oc cs).tableau⟩ with
  | mk ek s =>
    cases ek <;> simp [hek]

/-- The source's fractional-part test is exactly "deviates from every
integer by more than 1e-6". -/
theorem frac_dev_iff (v : ℚ) :
    (tol6 < v - ⌊v⌋ ∧ v - ⌊v⌋ < 1 - tol6) ↔ ∀ n : ℤ, tol6 < |v - n| := by
  constructor
  · rintro ⟨h1, h2⟩ n
    rcases le_or_lt (n : ℚ) (⌊v⌋ : ℚ) with hn | hn
    · have hv : (n : ℚ) ≤ v := le_trans hn (Int.floor_le v)
      rw [abs_of_nonneg (by linarith)]
      have : (⌊v⌋ : ℚ) ≤ v := Int.floor_le v
      linarith
    · have hn2 : (⌊v⌋ : ℚ) + 1 ≤ n := by
        have := Int.lt_iff_add_one_le.mp (by exact_mod_cast hn)
        exact_mod_cast this
      have hv : v < (n : ℚ) := by
        have := Int.lt_floor_add_one v
        linarith
      rw [abs_of_neg (by linarith)]
      linarith
  · intro h
    constructor
    · have := h ⌊v⌋
      rwa [abs_of_nonneg (by linarith [Int.floor_le v])] at this
    · have := h (⌊v⌋ + 1)
      rw [abs_of_neg (by push_cast; linarith [Int.lt_floor_add_one v])] at this
      push_cast at this
      linarith

/-- `getFractionalVar` returns the first listed integer variable whose
value fails the integrality test, together with that value. -/
theorem getFractionalVar_spec (intVars : List ℕ) (sol : List ℚ) (j : ℕ) (v : ℚ)
    (hsort : intVars.Pairwise (· < ·))
    (h : BnB.getFractionalVar intVars sol = some (j, v)) :
    j ∈ intVars ∧ v = sol.getD j 0 ∧
    (tol6 < v - ⌊v⌋ ∧ v - ⌊v⌋ < 1 - tol6) ∧
    (∀ k ∈ intVars, k < j →
      ¬ (tol6 < sol.getD k 0 - ⌊sol.getD k 0⌋ ∧
         sol.getD k 0 - ⌊sol.getD k 0⌋ < 1 - tol6)) := by
  induction intVars with
  | nil => cases h
  | cons a tl ih =>
    rw [BnB.getFractionalVar, List.findSome?_cons] at h
    dsimp only [] at h
    split at h
    next b heq =>
      injection h with h2
      subst h2
      split at heq
      next hc =>
        injection heq with h3
        obtain ⟨hja, hv⟩ := Prod.ext_iff.mp h3
        subst hja
        subst hv
        rw [Bool.and_eq_true, decide_eq_true_iff, decide_eq_true_iff] at hc
        refine ⟨List.mem_cons_self a tl, rfl, ⟨hc.1, hc.2⟩, ?_⟩
        intro k hk hkj
        rcases List.mem_cons.mp hk with he | htl
        · omega
        · have := (List.pairwise_cons.mp hsort).1 k htl
          omega
      next hc => exact Option.noConfusion heq
    next heq =>
      split at heq
      next hc => exact Option.noConfusion heq
      next hc =>
        have hrec := ih (List.pairwise_cons.mp hsort).2 h
        refine ⟨List.mem_cons_of_mem a hrec.1, hrec.2.1, hrec.2.2.1, ?_⟩
        intro k hk hkj
        rcases List.mem_cons.mp hk with he | htl
        · subst he
          rw [Bool.and_eq_true, decide_eq_true_iff, decide_eq_true_iff] at hc
          intro hcon
          exact hc ⟨hcon.1, hcon.2⟩
        · exact hrec.2.2.2 k htl hkj

end ORToolkit

namespace ORToolkit

/-!
## The claims
-/

set_option maxRecDepth 4000 in
attribute [local semireducible] Rat.add Rat.mul Rat.sub Rat.inv in
/-- C1: for maximize `3x₁ + 2x₂` subject to `x₁ + x₂ ≤ 4` and `x₁ ≤ 3`
(with `x₁, x₂ ≥ 0` implicit in the tableau form), the Simplex solve
reports an optimal solution with `x₁ = 3`, `x₂ = 1` and objective value
`Z = 11`. -/
theorem C1_scenario_A_optimal :
    (Simplex.solve 2 ObjType.max [3, 2]
        [⟨[1, 1], Rel.le, 4⟩, ⟨[1, 0], Rel.le, 3⟩]).result =
      Simplex.SolveResult.optimal [3, 1] 11 ∧
    (Simplex.solve 2 ObjType.max [3, 2]
        [⟨[1, 1], Rel.le, 4⟩, ⟨[1, 0], Rel.le, 3⟩]).exit =
      Simplex.ExitKind.optimal := by
  constructor <;> decide

/-- C2: whenever the iteration loop reaches a state in which the dual
branch is not taken and the reduced-cost optimality condition holds (no
Z-row entry below `-1e-10`), it exits reporting Infeasible exactly when
some row whose basic variable is artificial has a right-hand side of
absolute value above `1e-10`, and exits reporting the solution optimal
otherwise. -/
theorem C2_optimality_implies_feasibility_check (artIdx : List ℕ)
    (totalVars fuel : ℕ) (s : Simplex.LoopState)
    (hdual : (s.useDual && Simplex.hasNegativeRHS s.tableau) = false)
    (hopt : Simplex.isOptimal s.zRow totalVars = true) :
    ((Simplex.solveLoop artIdx totalVars (fuel + 1) s).1 =
        Simplex.ExitKind.infeasibleArt ↔
      ∃ i < s.basicVars.length, s.basicVars.getD i 0 ∈ artIdx ∧
        |(s.tableau.getD i []).getD totalVars 0| > tol) ∧
    ((Simplex.solveLoop artIdx totalVars (fuel + 1) s).1 =
        Simplex.ExitKind.optimal ↔
      ¬ ∃ i < s.basicVars.length, s.basicVars.getD i 0 ∈ artIdx ∧
        |(s.tableau.getD i []).getD totalVars 0| > tol) := by
  have hstep : Simplex.solveLoop artIdx totalVars (fuel + 1) s =
      if hasArtificialInBasis s.tableau s.basicVars artIdx totalVars then
        (Simplex.ExitKind.infeasibleArt, s)
      else (Simplex.ExitKind.optimal, s) := by
    rw [Simplex.solveLoop, hdual, hopt]
    simp
  rw [← hasArtificialInBasis_iff s.tableau s.basicVars artIdx totalVars]
  by_cases hart : hasArtificialInBasis s.tableau s.basicVars artIdx totalVars = true
  · simp [hstep, hart]
  · simp only [Bool.not_eq_true] at hart
    simp [hstep, hart]

attribute [local semireducible] Rat.add Rat.mul Rat.sub Rat.inv in
/-- Witness for C2 at a concrete one-row state whose basic variable is
the artificial column 2 with right-hand side 5. -/
theorem C2_optimality_implies_feasibility_check_witness :
    ((Simplex.solveLoop [2] 3 1 ⟨[[1, 0, 1, 5]], [0, 0, 0, 0], [2], false⟩).1 =
        Simplex.ExitKind.infeasibleArt ↔
      ∃ i < [2].length, [2].getD i 0 ∈ [2] ∧
        |([[(1 : ℚ), 0, 1, 5]].getD i []).getD 3 0| > tol) ∧
    ((Simplex.solveLoop [2] 3 1 ⟨[[1, 0, 1, 5]], [0, 0, 0, 0], [2], false⟩).1 =
        Simplex.ExitKind.optimal ↔
      ¬ ∃ i < [2].length, [2].getD i 0 ∈ [2] ∧
        |([[(1 : ℚ), 0, 1, 5]].getD i []).getD 3 0| > tol) :=
  C2_optimality_implies_feasibility_check [2] 3 0
    ⟨[[1, 0, 1, 5]], [0, 0, 0, 0], [2], false⟩ (by decide) (by decide)

/-- C3: at a feasible, unpruned node whose relaxation still has a
fractional integer-designated variable, the search picks the first such
variable in index order (for a strictly increasing `integerVars` list),
records the node as branched, and appends exactly two children to the
back of the FIFO queue whose extra constraints extend the parent's by
`x_j ≤ ⌊v⌋` and `x_j ≥ ⌈v⌉` respectively. -/
theorem C3_branch_creates_two_fifo_children (numVars : ℕ) (isMax : Bool)
    (intVars : List ℕ) (c : List ℚ) (cs : List Constraint) (node : BnB.Node)
    (rest : List BnB.Node) (best : Option (List ℚ × ℚ))
    (nodes : List BnB.NodeInfo) (nextId : ℕ) (sol : List ℚ) (z : ℚ)
    (j : ℕ) (v : ℚ)
    (hsort : intVars.Pairwise (· < ·))
    (hlp : BnB.solveLP numVars isMax c cs node.extraConstraints =
      BnB.LPResult.feasible sol z)
    (hpr : BnB.pruneCheck isMax best z = false)
    (hfv : BnB.getFractionalVar intVars sol = some (j, v)) :
    (j ∈ intVars ∧ v = sol.getD j 0 ∧ (∀ n : ℤ, tol6 < |v - n|) ∧
      ∀ k ∈ intVars, k < j → ∃ n : ℤ, |sol.getD k 0 - n| ≤ tol6) ∧
    (BnB.processNode numVars isMax intVars c cs node rest best nodes nextId).queue =
      rest ++
        [⟨nextId, node.extraConstraints ++
            [⟨(List.replicate numVars (0 : ℚ)).set j 1, Rel.le, (⌊v⌋ : ℚ)⟩],
          node.depth + 1, some node.id, some (j, Rel.le, ⌊v⌋)⟩,
         ⟨nextId + 1, node.extraConstraints ++
            [⟨(List.replicate numVars (0 : ℚ)).set j 1, Rel.ge, (⌈v⌉ : ℚ)⟩],
          node.depth + 1, some node.id, some (j, Rel.ge, ⌈v⌉)⟩] ∧
    (BnB.processNode numVars isMax intVars c cs node rest best nodes nextId).nodes =
      nodes ++ [⟨node.id, node.depth, node.parent, node.branchInfo,
        node.extraConstraints, BnB.Status.branched, none,
        some (sol.map round4), some (round4 z), some (j, v)⟩] := by
  have hspec := getFractionalVar_spec intVars sol j v hsort hfv
  refine ⟨⟨hspec.1, hspec.2.1, ?_, ?_⟩, ?_, ?_⟩
  · exact (frac_dev_iff v).mp hspec.2.2.1
  · intro k hk hkj
    have hnot := hspec.2.2.2 k hk hkj
    by_contra hcon
    push_neg at hcon
    exact hnot ((frac_dev_iff _).mpr hcon)
  · unfold BnB.processNode
    rw [hlp]
    simp [hpr, hfv]
  · unfold BnB.processNode
    rw [hlp]
    simp [hpr, hfv]

attribute [local semireducible] Rat.add Rat.mul Rat.sub Rat.inv in
/-- Witness for C3 at the root of Scenario D (maximize `5x₁ + 4x₂`,
`6x₁ + 4x₂ ≤ 24`, `x₁ + 2x₂ ≤ 6`, both integer): the relaxation gives
`(3, 3/2)` and the search branches on `x₂ = 3/2`. -/
theorem C3_branch_creates_two_fifo_children_witness :
    ((1 : ℕ) ∈ [0, 1] ∧ (3 / 2 : ℚ) = [3, (3 : ℚ)/2].getD 1 0 ∧
      (∀ n : ℤ, tol6 < |(3 / 2 : ℚ) - n|) ∧
      ∀ k ∈ [0, 1], k < 1 → ∃ n : ℤ, |[3, (3 : ℚ)/2].getD k 0 - n| ≤ tol6) ∧
    (BnB.processNode 2 true [0, 1] [5, 4]
        [⟨[6, 4], Rel.le, 24⟩, ⟨[1, 2], Rel.le, 6⟩]
        ⟨0, [], 0, none, none⟩ [] none [] 1).queue =
      [] ++
        [⟨1, [] ++ [⟨(List.replicate 2 (0 : ℚ)).set 1 1, Rel.le, (⌊(3 / 2 : ℚ)⌋ : ℚ)⟩],
          0 + 1, some 0, some (1, Rel.le, ⌊(3 / 2 : ℚ)⌋)⟩,
         ⟨1 + 1, [] ++ [⟨(List.replicate 2 (0 : ℚ)).set 1 1, Rel.ge, (⌈(3 / 2 : ℚ)⌉ : ℚ)⟩],
          0 + 1, some 0, some (1, Rel.ge, ⌈(3 / 2 : ℚ)⌉)⟩] ∧
    (BnB.processNode 2 true [0, 1] [5, 4]
        [⟨[6, 4], Rel.le, 24⟩, ⟨[1, 2], Rel.le, 6⟩]
        ⟨0, [], 0, none, none⟩ [] none [] 1).nodes =
      [] ++ [⟨0, 0, none, none, [], BnB.Status.branched, none,
        some ([3, (3 : ℚ)/2].map round4), some (round4 21), some (1, 3 / 2)⟩] :=
  C3_branch_creates_two_fifo_children 2 true [0, 1] [5, 4]
    [⟨[6, 4], Rel.le, 24⟩, ⟨[1, 2], Rel.le, 6⟩]
    ⟨0, [], 0, none, none⟩ [] none [] 1 [3, 3/2] 21 1 (3/2)
    (by decide) (by decide) (by decide) (by decide)

set_option maxRecDepth 4000 in
attribute [local semireducible] Rat.add Rat.mul Rat.sub Rat.inv in
/-- C5 counterexample: in the solved Scenario A, `x₁` (variable index 0)
is basic, and the no-op what-if query on it (new value 3 equal to old
value 3) reports a blanket re-solve recommendation, not "basis remains
optimal". -/
theorem C5_noop_whatif_counterexample :
    (Simplex.solve 2 ObjType.max [3, 2]
        [⟨[1, 1], Rel.le, 4⟩, ⟨[1, 0], Rel.le, 3⟩]).final.basicVars.any
        (fun b => b == 0) = true ∧
    Simplex.analyzeChangeCj 0 3 3
        (Simplex.solve 2 ObjType.max [3, 2]
          [⟨[1, 1], Rel.le, 4⟩, ⟨[1, 0], Rel.le, 3⟩]).final.basicVars
        (Simplex.solve 2 ObjType.max [3, 2]
          [⟨[1, 1], Rel.le, 4⟩, ⟨[1, 0], Rel.le, 3⟩]).final.zRow 11 =
      Simplex.WhatIfOutcome.resolveRecommended ∧
    ∀ z : ℚ, Simplex.WhatIfOutcome.resolveRecommended ≠
      Simplex.WhatIfOutcome.basisOptimal z := by
  refine ⟨by decide, by decide, ?_⟩
  intro z h
  cases h

/-- C5 amended: a no-op objective-coefficient what-if (new value equal to
old) reports "basis remains optimal, Z unchanged" for a NON-basic
variable whose stored reduced cost is at least `-1e-10` (which holds at
any reduced-cost-optimal tableau), but for a basic variable the code
always reports a re-solve recommendation instead. -/
theorem C5_noop_whatif_by_basis_status (varIdx : ℕ) (cval finalZ : ℚ)
    (bv : List ℕ) (zRow : List ℚ) (hrc : -tol ≤ zRow.getD varIdx 0) :
    Simplex.analyzeChangeCj varIdx cval cval bv zRow finalZ =
      (if bv.any (fun b => b == varIdx) then
        Simplex.WhatIfOutcome.resolveRecommended
       else Simplex.WhatIfOutcome.basisOptimal finalZ) := by
  unfold Simplex.analyzeChangeCj
  by_cases hb : bv.any (fun b => b == varIdx) = true
  · simp [hb]
  · simp only [Bool.not_eq_true] at hb
    rw [List.getD_eq_getElem?_getD] at hrc
    simp [hb, sub_self, hrc]

attribute [local semireducible] Rat.add Rat.mul Rat.sub Rat.inv in
/-- Witness for the amended C5 at the solved Scenario A state: the no-op
on the non-basic slack column 2 keeps the basis optimal, reporting the
unchanged `Z = 11`. -/
theorem C5_noop_whatif_by_basis_status_witness :
    -tol ≤ ([0, 0, 2, 1, 11] : List ℚ).getD 2 0 ∧
    Simplex.analyzeChangeCj 2 7 7 [1, 0] [0, 0, 2, 1, 11] 11 =
      (if [1, 0].any (fun b => b == 2) then
        Simplex.WhatIfOutcome.resolveRecommended
       else Simplex.WhatIfOutcome.basisOptimal 11) :=
  ⟨by decide, C5_noop_whatif_by_basis_status 2 7 11 [1, 0] [0, 0, 2, 1, 11]
    (by decide)⟩

end ORToolkit

namespace ORToolkit

set_option maxRecDepth 4000 in
attribute [local semireducible] Rat.add Rat.mul Rat.sub Rat.inv in
/-- C6 counterexample: for maximize `x₁` subject to `3x₁ ≤ 1`, variable
`x₁` is basic in row 0 with tableau right-hand side `1/3`, but the
reported value is the rounded `3333/10000 ≠ 1/3`: the reported value is
not the row's right-hand side. -/
theorem C6_extraction_counterexample :
    (Simplex.solve 1 ObjType.max [1] [⟨[3], Rel.le, 1⟩]).exit =
      Simplex.ExitKind.optimal ∧
    (Simplex.solve 1 ObjType.max [1] [⟨[3], Rel.le, 1⟩]).final.basicVars = [0] ∧
    ((Simplex.solve 1 ObjType.max [1] [⟨[3], Rel.le, 1⟩]).final.tableau.getD 0
      []).getD 2 0 = 1 / 3 ∧
    (Simplex.solve 1 ObjType.max [1] [⟨[3], Rel.le, 1⟩]).result =
      Simplex.SolveResult.optimal [3333 / 10000] (1 / 3) ∧
    (3333 / 10000 : ℚ) ≠ 1 / 3 := by
  refine ⟨by decide, by decide, by decide, by decide, by decide⟩

/-- C6 amended: in the extracted result, a decision variable's value is
its row's right-hand side ROUNDED TO 4 DECIMALS (`Math.round(v·10⁴)/10⁴`)
when the variable is basic (for a duplicate-free basic-variable vector),
and exactly zero otherwise; and on an optimal exit the reported
objective value is the Z-row's last entry, negated exactly when the
original sense was minimization. -/
theorem C6_extraction_rounded (t : List (List ℚ)) (b : List ℕ) (tv nv : ℕ)
    (hnd : b.Nodup) :
    (∀ j < nv, (∀ i < b.length, b.getD i 0 ≠ j) →
      (Simplex.extractSolution t b tv nv).getD j 0 = 0) ∧
    (∀ i j, i < b.length → b.getD i 0 = j → j < nv →
      (Simplex.extractSolution t b tv nv).getD j 0 =
        round4 ((t.getD i []).getD tv 0)) ∧
    (∀ (nv2 : ℕ) (ot : ObjType) (oc : List ℚ) (cs : List Constraint),
      (Simplex.solve nv2 ot oc cs).exit = Simplex.ExitKind.optimal →
      (Simplex.solve nv2 ot oc cs).result =
        Simplex.SolveResult.optimal
          (Simplex.extractSolution (Simplex.solve nv2 ot oc cs).final.tableau
            (Simplex.solve nv2 ot oc cs).final.basicVars
            (Simplex.buildTableau nv2 ot oc cs).totalVars nv2)
          (if (Simplex.buildTableau nv2 ot oc cs).wasMinimization then
            -((Simplex.solve nv2 ot oc cs).final.zRow.getD
              (Simplex.buildTableau nv2 ot oc cs).totalVars 0)
           else
            (Simplex.solve nv2 ot oc cs).final.zRow.getD
              (Simplex.buildTableau nv2 ot oc cs).totalVars 0)) := by
  refine ⟨?_, ?_, ?_⟩
  · intro j hj hnb
    unfold Simplex.extractSolution
    rw [extract_fold_untouched t b tv nv j _ _
      (fun i hi => hnb i (List.mem_range.mp hi))]
    simp [List.getD_eq_getElem?_getD, List.getElem?_replicate, hj]
  · intro i j hi hbij hj
    unfold Simplex.extractSolution
    apply extract_fold_basic t b tv nv j i hj hbij
    · simp
    · exact List.nodup_range b.length
    · exact List.mem_range.mpr hi
    · intro k hk hki
      rw [← hbij]
      have hk2 : k < b.length := List.mem_range.mp hk
      intro he
      apply hki
      have h1 : b.getD k 0 = b[k] := by
        simp [List.getD_eq_getElem?_getD, List.getElem?_eq_getElem hk2]
      have h2 : b.getD i 0 = b[i] := by
        simp [List.getD_eq_getElem?_getD, List.getElem?_eq_getElem hi]
      rw [h1, h2] at he
      exact (List.Nodup.getElem_inj_iff hnd).mp he
  · intro nv2 ot oc cs hexit
    exact solve_result_shape nv2 ot oc cs hexit

attribute [local semireducible] Rat.add Rat.mul Rat.sub Rat.inv in
/-- Witness for the amended C6 at the final tableau of
maximize `x₁`, `3x₁ ≤ 1`. -/
theorem C6_extraction_rounded_witness :
    ([0] : List ℕ).Nodup ∧
    ((∀ j < 1, (∀ i < ([0] : List ℕ).length, ([0] : List ℕ).getD i 0 ≠ j) →
      (Simplex.extractSolution [[1, 1/3, 1/3]] [0] 2 1).getD j 0 = 0) ∧
    (∀ i j, i < ([0] : List ℕ).length → ([0] : List ℕ).getD i 0 = j → j < 1 →
      (Simplex.extractSolution [[(1 : ℚ), 1/3, 1/3]] [0] 2 1).getD j 0 =
        round4 (([[(1 : ℚ), 1/3, 1/3]].getD i []).getD 2 0)) ∧
    (∀ (nv2 : ℕ) (ot : ObjType) (oc : List ℚ) (cs : List Constraint),
      (Simplex.solve nv2 ot oc cs).exit = Simplex.ExitKind.optimal →
      (Simplex.solve nv2 ot oc cs).result =
        Simplex.SolveResult.optimal
          (Simplex.extractSolution (Simplex.solve nv2 ot oc cs).final.tableau
            (Simplex.solve nv2 ot oc cs).final.basicVars
            (Simplex.buildTableau nv2 ot oc cs).totalVars nv2)
          (if (Simplex.buildTableau nv2 ot oc cs).wasMinimization then
            -((Simplex.solve nv2 ot oc cs).final.zRow.getD
              (Simplex.buildTableau nv2 ot oc cs).totalVars 0)
           else
            (Simplex.solve nv2 ot oc cs).final.zRow.getD
              (Simplex.buildTableau nv2 ot oc cs).totalVars 0))) :=
  ⟨by decide, C6_extraction_rounded [[1, 1/3, 1/3]] [0] 2 1 (by decide)⟩

/-- C7: when the columns listed in the basic-variable vector form an
identity submatrix and the pivot element is non-zero, the columns listed
in the updated basic-variable vector after one `pivot` again form an
identity submatrix. -/
theorem C7_pivot_preserves_identity (t : List (List ℚ)) (z : List ℚ)
    (b : List ℕ) (tv pr pc : ℕ)
    (hpr : pr < t.length) (hpc : pc ≤ tv)
    (hbv : ∀ k < b.length, b.getD k 0 ≤ tv)
    (hid : ∀ i < t.length, ∀ k < b.length,
      (t.getD i []).getD (b.getD k 0) 0 = if i = k then 1 else 0)
    (hp : (t.getD pr []).getD pc 0 ≠ 0) :
    ∀ i < (pivot t z pr pc b tv).1.length,
      ∀ k < (pivot t z pr pc b tv).2.2.length,
        (((pivot t z pr pc b tv).1.getD i []).getD
            ((pivot t z pr pc b tv).2.2.getD k 0) 0) =
          if i = k then 1 else 0 := by
  intro i hi k hk
  rw [pivot_tableau_length] at hi
  rw [pivot_basicVars_length] at hk
  rw [pivot_basicVars_getD t z b tv pr pc k hk]
  by_cases hkpr : k = pr
  · subst hkpr
    rw [if_pos rfl]
    rw [pivot_tableau_entry t z b tv k pc i pc hi (by omega)]
    by_cases hik : i = k
    · rw [if_pos hik, if_pos hik, div_self hp]
    · rw [if_neg hik, if_neg hik, div_self hp, mul_one, sub_self]
  · rw [if_neg hkpr]
    have hcol : b.getD k 0 < tv + 1 := by
      have := hbv k hk
      omega
    rw [pivot_tableau_entry t z b tv pr pc i (b.getD k 0) hi hcol]
    have hprk : (t.getD pr []).getD (b.getD k 0) 0 = 0 := by
      have := hid pr hpr k hk
      rw [if_neg (fun hh => hkpr (hh.symm))] at this
      exact this
    by_cases hipr : i = pr
    · subst hipr
      rw [if_pos rfl, hprk, zero_div]
      rw [if_neg (fun hh => hkpr (hh.symm))]
    · rw [if_neg hipr, hprk, zero_div, mul_zero, sub_zero]
      exact hid i hi k hk

attribute [local semireducible] Rat.add Rat.mul Rat.sub Rat.inv in
/-- Witness for C7 on a concrete 2×2 identity basis, pivoting on the
(0,0) entry. -/
theorem C7_pivot_preserves_identity_witness :
    ((([[(1 : ℚ), 0, 5], [0, 1, 3]].getD 0 []).getD 0 0) ≠ 0) ∧
    ∀ i < (pivot [[(1 : ℚ), 0, 5], [0, 1, 3]] [0, 0, 0] 0 0 [0, 1] 2).1.length,
      ∀ k < (pivot [[(1 : ℚ), 0, 5], [0, 1, 3]] [0, 0, 0] 0 0 [0, 1] 2).2.2.length,
        (((pivot [[(1 : ℚ), 0, 5], [0, 1, 3]] [0, 0, 0] 0 0 [0, 1] 2).1.getD i []).getD
            ((pivot [[(1 : ℚ), 0, 5], [0, 1, 3]] [0, 0, 0] 0 0 [0, 1] 2).2.2.getD k 0) 0) =
          if i = k then 1 else 0 :=
  ⟨by decide,
    C7_pivot_preserves_identity [[1, 0, 5], [0, 1, 3]] [0, 0, 0] [0, 1] 2 0 0
      (by decide) (by decide) (by decide) (by decide) (by decide)⟩

/-- C10: when the root relaxation is unbounded, Branch-and-Bound stops at
once with no incumbent, records the single root node with the infeasible
status and the Unbounded message, and the displayed final result is the
"no integer solution" banner — the same banner as for a genuinely
integer-infeasible problem, so the public ILP result does not
distinguish the two. -/
theorem C10_unbounded_root_no_integer_solution (numVars : ℕ) (isMax : Bool)
    (intVars : List ℕ) (c : List ℚ) (cs : List Constraint) (fuel : ℕ)
    (h : BnB.solveLP numVars isMax c cs [] = BnB.LPResult.unbounded) :
    (BnB.branchAndBound numVars isMax intVars c cs (fuel + 1)).bestSolution = none ∧
    (BnB.branchAndBound numVars isMax intVars c cs (fuel + 1)).nodes =
      [⟨0, 0, none, none, [], BnB.Status.infeasibleNode,
        some BnB.NodeMsg.unboundedLP, none, none, none⟩] ∧
    BnB.displayFinal (BnB.branchAndBound numVars isMax intVars c cs (fuel + 1)) =
      BnB.FinalKind.noIntegerSolution := by
  have hempty : ∀ (f : ℕ) (b : Option (List ℚ × ℚ)) (n : List BnB.NodeInfo) (i : ℕ),
      BnB.bnbLoop numVars isMax intVars c cs f ⟨b, n, i, []⟩ = ⟨b, n, i, []⟩ := by
    intro f b n i
    cases f <;> simp [BnB.bnbLoop]
  have hproc : BnB.processNode numVars isMax intVars c cs
      ⟨0, [], 0, none, none⟩ [] none [] 1 =
      ⟨none, [⟨0, 0, none, none, [], BnB.Status.infeasibleNode,
        some BnB.NodeMsg.unboundedLP, none, none, none⟩], 1, []⟩ := by
    unfold BnB.processNode
    rw [show (⟨0, [], 0, none, none⟩ : BnB.Node).extraConstraints = [] from rfl, h]
    simp
  unfold BnB.branchAndBound
  rw [BnB.bnbLoop]
  simp only [hproc]
  rw [hempty]
  refine ⟨rfl, rfl, rfl⟩

attribute [local semireducible] Rat.add Rat.mul Rat.sub Rat.inv in
/-- Witness for C10: maximize `x₁` subject to `-x₁ ≤ 1` with `x₁`
integer has an unbounded root relaxation. -/
theorem C10_unbounded_root_no_integer_solution_witness :
    BnB.solveLP 1 true [1] [⟨[-1], Rel.le, 1⟩] [] = BnB.LPResult.unbounded ∧
    (BnB.branchAndBound 1 true [0] [1] [⟨[-1], Rel.le, 1⟩] 1).bestSolution = none ∧
    (BnB.branchAndBound 1 true [0] [1] [⟨[-1], Rel.le, 1⟩] 1).nodes =
      [⟨0, 0, none, none, [], BnB.Status.infeasibleNode,
        some BnB.NodeMsg.unboundedLP, none, none, none⟩] ∧
    BnB.displayFinal (BnB.branchAndBound 1 true [0] [1] [⟨[-1], Rel.le, 1⟩] 1) =
      BnB.FinalKind.noIntegerSolution := by
  have h : BnB.solveLP 1 true [1] [⟨[-1], Rel.le, 1⟩] [] = BnB.LPResult.unbounded := by
    decide
  exact ⟨h, C10_unbounded_root_no_integer_solution 1 true [0] [1]
    [⟨[-1], Rel.le, 1⟩] 0 h⟩

end ORToolkit

namespace ORToolkit

/-!
## Correspondence between the Branch-and-Bound LP solver and the engine
-/

/-- A most-negative-entry fold never changes state when nothing beats
the running minimum. -/
theorem foldl_argmin_stays (g : ℕ → ℚ) (L : List ℕ) (m : ℚ) (c : Option ℕ)
    (h : ∀ j ∈ L, ¬ g j < m) :
    L.foldl (fun st j => if g j < st.1 then (g j, some j) else st) (m, c) = (m, c) := by
  induction L with
  | nil => rfl
  | cons hd tl ih =>
    simp only [List.foldl_cons]
    rw [if_neg (h hd (List.mem_cons_self hd tl))]
    exact ih (fun j hj => h j (List.mem_cons_of_mem hd hj))

/-- Once the running candidate is `some`, it stays `some`. -/
theorem foldl_argmin_some_stays (g : ℕ → ℚ) (L : List ℕ) :
    ∀ (m : ℚ) (i : ℕ), ∃ r k,
      L.foldl (fun st j => if g j < st.1 then (g j, some j) else st) (m, some i) =
        (r, some k) := by
  induction L with
  | nil => intro m i; exact ⟨m, i, rfl⟩
  | cons hd tl ih =>
    intro m i
    simp only [List.foldl_cons]
    by_cases hlt : g hd < m
    · rw [if_pos hlt]
      exact ih (g hd) hd
    · rw [if_neg hlt]
      exact ih m i

/-- When some entry beats the running minimum, the fold ends on `some`. -/
theorem foldl_argmin_fires (g : ℕ → ℚ) (L : List ℕ) :
    ∀ (m : ℚ) (c : Option ℕ), (∃ j ∈ L, g j < m) → ∃ r k,
      L.foldl (fun st j => if g j < st.1 then (g j, some j) else st) (m, c) =
        (r, some k) := by
  induction L with
  | nil => rintro m c ⟨j, hj, _⟩; cases hj
  | cons hd tl ih =>
    rintro m c ⟨j, hj, hlt⟩
    simp only [List.foldl_cons]
    by_cases hhd : g hd < m
    · rw [if_pos hhd]
      exact foldl_argmin_some_stays g tl (g hd) hd
    · rw [if_neg hhd]
      rcases List.mem_cons.mp hj with he | htl
      · exact absurd (he ▸ hlt) hhd
      · exact ih m c ⟨j, htl, hlt⟩

/-- Two most-negative-entry folds with different starting thresholds and
candidates agree as soon as some entry beats the smaller threshold. -/
theorem foldl_argmin_thresh (g : ℕ → ℚ) (L : List ℕ) :
    ∀ (m1 m2 : ℚ) (c1 c2 : Option ℕ), m2 ≤ m1 → (∃ j ∈ L, g j < m2) →
      L.foldl (fun st j => if g j < st.1 then (g j, some j) else st) (m1, c1) =
      L.foldl (fun st j => if g j < st.1 then (g j, some j) else st) (m2, c2) := by
  induction L with
  | nil => rintro m1 m2 c1 c2 _ ⟨j, hj, _⟩; cases hj
  | cons hd tl ih =>
    rintro m1 m2 c1 c2 hle ⟨j, hj, hlt⟩
    simp only [List.foldl_cons]
    by_cases h2 : g hd < m2
    · rw [if_pos h2, if_pos (lt_of_lt_of_le h2 hle)]
    · rw [if_neg h2]
      have hwit : ∃ j ∈ tl, g j < m2 := by
        rcases List.mem_cons.mp hj with he | htl
        · exact absurd (he ▸ hlt) h2
        · exact ⟨j, htl, hlt⟩
      by_cases h1 : g hd < m1
      · rw [if_pos h1]
        exact ih (g hd) m2 (some hd) c2 (le_of_not_lt h2) hwit
      · rw [if_neg h1]
        exact ih m1 m2 c1 c2 hle hwit

/-- `isOptimal` unpacked. -/
theorem isOptimal_iff (z : List ℚ) (tv : ℕ) :
    Simplex.isOptimal z tv = true ↔ ∀ j < tv, ¬(z.getD j 0 < -tol) := by
  simp [Simplex.isOptimal, List.all_eq_true, List.mem_range]

/-- `solveLP`'s entering-column search returns nothing exactly when the
engine's optimality test holds. -/
theorem lpFindPivotCol_none_iff (z : List ℚ) (tv : ℕ) :
    BnB.lpFindPivotCol z tv = none ↔ Simplex.isOptimal z tv = true := by
  rw [isOptimal_iff]
  unfold BnB.lpFindPivotCol
  constructor
  · intro h j hj hneg
    obtain ⟨r, k, hrk⟩ := foldl_argmin_fires (fun j2 => z.getD j2 0)
      (List.range tv) (-tol) none ⟨j, List.mem_range.mpr hj, hneg⟩
    rw [hrk] at h
    cases h
  · intro h
    rw [foldl_argmin_stays (fun j2 => z.getD j2 0) (List.range tv) (-tol) none
      (fun j hj => h j (List.mem_range.mp hj))]

/-- When the optimality test fails, the engine's entering-column choice
(threshold 0) agrees with `solveLP`'s (threshold `-1e-10`): both return
the first index attaining the most negative Z-row entry. -/
theorem findPivotColumn_eq_lp (z : List ℚ) (tv : ℕ)
    (h : Simplex.isOptimal z tv = false) :
    Simplex.findPivotColumn z tv = BnB.lpFindPivotCol z tv := by
  have hex : ∃ j ∈ List.range tv, z.getD j 0 < -tol := by
    have h2 : ¬ ∀ j < tv, ¬(z.getD j 0 < -tol) := by
      rw [← isOptimal_iff]
      simp [h]
    push_neg at h2
    obtain ⟨j, hj, hneg⟩ := h2
    exact ⟨j, List.mem_range.mpr hj, hneg⟩
  unfold Simplex.findPivotColumn BnB.lpFindPivotCol
  rw [foldl_argmin_thresh (fun j2 => z.getD j2 0) (List.range tv) 0 (-tol)
    none none (by norm_num [tol]) hex]

/-- Negating a list entrywise negates every `getD 0` read. -/
theorem getD_map_neg (l : List ℚ) (j : ℕ) :
    (l.map fun x => -x).getD j 0 = -(l.getD j 0) := by
  rcases h : l[j]? with _ | x
  · simp [List.getD_eq_getElem?_getD, h]
  · simp [List.getD_eq_getElem?_getD, h]

/-- `solveLP`'s inline Z-row initialization is the engine's `zRowInit`
applied to the internally negated objective. -/
theorem lpZRowInit_eq (numVars totalVars : ℕ) (c : List ℚ) (isMax : Bool)
    (artIdx : List ℕ) :
    BnB.lpZRowInit numVars totalVars c isMax artIdx =
      Simplex.zRowInit numVars totalVars
        (if isMax then c else c.map fun x => -x) artIdx := by
  unfold BnB.lpZRowInit Simplex.zRowInit
  apply List.map_congr_left
  intro j _
  by_cases ha : j ∈ artIdx
  · simp [ha]
  · by_cases hj : j < numVars
    · cases isMax with
      | true => simp [ha, hj]
      | false =>
        cases hc : c.get? j with
        | none =>
          rw [List.get?_eq_getElem?] at hc
          simp [ha, hj, List.getD_eq_getElem?_getD, hc]
        | some x =>
          rw [List.get?_eq_getElem?] at hc
          simp [ha, hj, List.getD_eq_getElem?_getD, hc]
    · simp [ha, hj]

/-- `solveLP`'s one-pass row construction produces the engine's rows,
basic variables, and artificial indices. -/
theorem buildRowsArt_eq (numVars totalVars : ℕ) (cs : List Constraint) :
    ∀ idx : ℕ, BnB.buildRowsArt numVars totalVars cs idx =
      ((Simplex.buildRows numVars totalVars cs idx).1,
       (Simplex.buildRows numVars totalVars cs idx).2,
       Simplex.artIndicesFrom cs idx) := by
  induction cs with
  | nil => intro idx; rfl
  | cons c rest ih =>
    intro idx
    obtain ⟨coeffs, rel, rhs⟩ := c
    cases rel <;>
      simp [BnB.buildRowsArt, Simplex.buildRows, Simplex.artIndicesFrom, ih]

/-- Rounding commutes with the extraction fold. -/
theorem fold_round4_comm (t : List (List ℚ)) (b : List ℕ) (tv nv : ℕ) :
    ∀ (L : List ℕ) (acc : List ℚ),
      L.foldl (fun sol i =>
          let v := b.getD i 0
          if v < nv then sol.set v (round4 ((t.getD i []).getD tv 0)) else sol)
        (acc.map round4) =
      (L.foldl (fun sol i =>
          let v := b.getD i 0
          if v < nv then sol.set v ((t.getD i []).getD tv 0) else sol)
        acc).map round4 := by
  intro L
  induction L with
  | nil => intro acc; rfl
  | cons hd tl ih =>
    intro acc
    simp only [List.foldl_cons]
    by_cases hv : b.getD hd 0 < nv
    · rw [if_pos hv, if_pos hv, ← List.map_set]
      exact ih _
    · rw [if_neg hv, if_neg hv]
      exact ih _

/-- The engine's `extractSolution` is `solveLP`'s extraction rounded to
4 decimals. -/
theorem extractSolution_eq_round4 (t : List (List ℚ)) (b : List ℕ) (tv nv : ℕ) :
    Simplex.extractSolution t b tv nv = (BnB.lpExtract t b tv nv).map round4 := by
  unfold Simplex.extractSolution BnB.lpExtract
  rw [← fold_round4_comm t b tv nv (List.range b.length) (List.replicate nv 0)]
  congr 1
  rw [List.map_replicate]
  norm_num [round4]

/-- With the dual branch disabled, the engine's iteration loop is
`solveLP`'s primal loop followed by the engine's in-loop leftover
artificial check: pivots coincide step for step, a `break` of the primal
loop corresponds to the engine's optimality branch, unbounded and
fuel-exhaustion exits carry the same state. -/
theorem solveLoop_eq_lpLoop (artIdx : List ℕ) (totalVars : ℕ) :
    ∀ (fuel : ℕ) (t : List (List ℚ)) (z : List ℚ) (b : List ℕ),
      Simplex.solveLoop artIdx totalVars fuel ⟨t, z, b, false⟩ =
        (match BnB.lpLoop totalVars fuel ⟨t, z, b⟩ with
         | (BnB.LoopExit.brk, s) =>
           (if hasArtificialInBasis s.tableau s.basicVars artIdx totalVars
            then Simplex.ExitKind.infeasibleArt else Simplex.ExitKind.optimal,
            ⟨s.tableau, s.zRow, s.basicVars, false⟩)
         | (BnB.LoopExit.unbounded, s) =>
           (Simplex.ExitKind.unbounded, ⟨s.tableau, s.zRow, s.basicVars, false⟩)
         | (BnB.LoopExit.fuelOut, s) =>
           (Simplex.ExitKind.fuelOut, ⟨s.tableau, s.zRow, s.basicVars, false⟩)) := by
  intro fuel
  induction fuel with
  | zero => intro t z b; rfl
  | succ f ih =>
    intro t z b
    rw [Simplex.solveLoop, BnB.lpLoop]
    simp only [Bool.false_and, Bool.false_eq_true, if_false]
    by_cases hopt : Simplex.isOptimal z totalVars = true
    · rw [if_pos hopt, (lpFindPivotCol_none_iff z totalVars).mpr hopt]
      by_cases hart : hasArtificialInBasis t b artIdx totalVars = true
      · simp [hart]
      · simp only [Bool.not_eq_true] at hart
        simp [hart]
    · rw [if_neg hopt]
      have hfalse : Simplex.isOptimal z totalVars = false := by
        rw [← Bool.not_eq_true]
        exact hopt
      have hne : BnB.lpFindPivotCol z totalVars ≠ none := by
        intro hn
        rw [(lpFindPivotCol_none_iff z totalVars).mp hn] at hfalse
        cases hfalse
      cases hpc : BnB.lpFindPivotCol z totalVars with
      | none => exact absurd hpc hne
      | some pc =>
        rw [findPivotColumn_eq_lp z totalVars hfalse, hpc]
        dsimp only []
        cases hrow : findPivotRow t pc totalVars with
        | none => rfl
        | some pr =>
          exact ih (pivot t z pr pc b totalVars).1
            (pivot t z pr pc b totalVars).2.1 (pivot t z pr pc b totalVars).2.2

attribute [local semireducible] Rat.add Rat.mul Rat.sub Rat.inv in
/-- C8 counterexample: on maximize `x₁` subject to `x₁ ≤ -1` — an input
whose initial basis has a negative right-hand side — the engine's
dual-simplex fallback reports Infeasible, while Branch-and-Bound's
internal `solveLP`, which has no dual fallback, reports unbounded: the
two do NOT return the same outcome. -/
theorem C8_dual_fallback_counterexample :
    Simplex.hasNegativeRHS
      (Simplex.buildTableau 1 ObjType.max [1] [⟨[1], Rel.le, -1⟩]).tableau = true ∧
    BnB.solveLP 1 true [1] [⟨[1], Rel.le, -1⟩] [] = BnB.LPResult.unbounded ∧
    (Simplex.solve 1 ObjType.max [1] [⟨[1], Rel.le, -1⟩]).result =
      Simplex.SolveResult.infeasible := by
  refine ⟨by decide, by decide, by decide⟩

/-- C8 amended: for inputs whose initial tableau has NO negative
right-hand side (so the engine stays in primal mode) and whose primal
loop concludes within the 100-iteration cap, `solveLP` and the engine's
`solve` return the same outcome: infeasible and unbounded agree exactly,
and on an optimum both report the same objective value while the
engine's variable values are `solveLP`'s rounded to 4 decimals.  (On
negative-right-hand-side inputs they can differ, because `solveLP` has
no dual-simplex fallback.) -/
theorem C8_solveLP_matches_engine_on_feasible_start (nv : ℕ) (isMax : Bool)
    (c : List ℚ) (cs : List Constraint)
    (hrhs : Simplex.hasNegativeRHS
      (Simplex.buildTableau nv (if isMax then ObjType.max else ObjType.min)
        c cs).tableau = false)
    (hcap : (Simplex.solve nv (if isMax then ObjType.max else ObjType.min)
      c cs).exit ≠ Simplex.ExitKind.fuelOut) :
    (Simplex.solve nv (if isMax then ObjType.max else ObjType.min) c cs).result =
      match BnB.solveLP nv isMax c cs [] with
      | BnB.LPResult.infeasible => Simplex.SolveResult.infeasible
      | BnB.LPResult.unbounded => Simplex.SolveResult.unbounded
      | BnB.LPResult.feasible sol z =>
        Simplex.SolveResult.optimal (sol.map round4) z := by
  unfold BnB.solveLP
  unfold Simplex.solve at hcap ⊢
  unfold Simplex.buildTableau at hrhs hcap ⊢
  simp only [List.append_nil, buildRowsArt_eq, lpZRowInit_eq] at hrhs hcap ⊢
  have hoc : (if ((if isMax = true then ObjType.max else ObjType.min) ==
        ObjType.min) = true
      then List.map (fun x => -x) c else c) =
      (if isMax = true then c else List.map (fun x => -x) c) := by
    cases isMax <;> rfl
  rw [hoc] at hcap ⊢
  set tv := nv + slackCount cs + surplusCount cs + artificialCount cs with htv
  set A := Simplex.artIndicesFrom cs nv with hA
  set T := (Simplex.buildRows nv tv cs nv).1 with hT
  set B := (Simplex.buildRows nv tv cs nv).2 with hB
  set Z := eliminateArtificials T B A tv
    (Simplex.zRowInit nv tv
      (if isMax = true then c else List.map (fun x => -x) c) A) with hZ
  rw [hrhs] at hcap ⊢
  rw [solveLoop_eq_lpLoop A tv 100 T Z B] at hcap ⊢
  cases hr : BnB.lpLoop tv 100 ⟨T, Z, B⟩ with
  | mk ex s =>
    rw [hr] at hcap
    cases ex with
    | brk =>
      by_cases hart : hasArtificialInBasis s.tableau s.basicVars A tv = true
      · simp [hart]
      · simp only [Bool.not_eq_true] at hart
        simp only [hart]
        cases isMax <;> simp [extractSolution_eq_round4]
    | unbounded => simp
    | fuelOut => simp at hcap

set_option maxRecDepth 4000 in
attribute [local semireducible] Rat.add Rat.mul Rat.sub Rat.inv in
/-- Witness for the amended C8 at Scenario A (no artificials, feasible
initial basis, loop concludes in two pivots). -/
theorem C8_solveLP_matches_engine_on_feasible_start_witness :
    Simplex.hasNegativeRHS
      (Simplex.buildTableau 2 (if true then ObjType.max else ObjType.min) [3, 2]
        [⟨[1, 1], Rel.le, 4⟩, ⟨[1, 0], Rel.le, 3⟩]).tableau = false ∧
    (Simplex.solve 2 (if true then ObjType.max else ObjType.min) [3, 2]
      [⟨[1, 1], Rel.le, 4⟩, ⟨[1, 0], Rel.le, 3⟩]).exit ≠
        Simplex.ExitKind.fuelOut ∧
    (Simplex.solve 2 (if true then ObjType.max else ObjType.min) [3, 2]
        [⟨[1, 1], Rel.le, 4⟩, ⟨[1, 0], Rel.le, 3⟩]).result =
      (match BnB.solveLP 2 true [3, 2]
          [⟨[1, 1], Rel.le, 4⟩, ⟨[1, 0], Rel.le, 3⟩] [] with
       | BnB.LPResult.infeasible => Simplex.SolveResult.infeasible
       | BnB.LPResult.unbounded => Simplex.SolveResult.unbounded
       | BnB.LPResult.feasible sol z =>
         Simplex.SolveResult.optimal (sol.map round4) z) :=
  ⟨by decide, by decide,
    C8_solveLP_matches_engine_on_feasible_start 2 true [3, 2]
      [⟨[1, 1], Rel.le, 4⟩, ⟨[1, 0], Rel.le, 3⟩] (by decide) (by decide)⟩

end ORToolkit

namespace ORToolkit

set_option maxRecDepth 20000 in
attribute [local semireducible] Rat.add Rat.mul Rat.sub Rat.inv in
/-- C4 counterexample: Beale's classic cycling example.  The engine's
pivot rules (most negative reduced cost, minimum ratio with
earliest-row tie-break) cycle forever on it; the loop exhausts the full
100-iteration cap without concluding, yet the caller-visible result is
a plain Optimal report of the last tableau's state — no non-convergence
condition is surfaced. -/
theorem C4_cap_exceeded_counterexample :
    (Simplex.solve 4 ObjType.max [3/4, -150, 1/50, -6]
        [⟨[1/4, -60, -1/25, 9], Rel.le, 0⟩,
         ⟨[1/2, -90, -1/50, 3], Rel.le, 0⟩,
         ⟨[0, 0, 1, 0], Rel.le, 1⟩]).exit = Simplex.ExitKind.fuelOut ∧
    (Simplex.solve 4 ObjType.max [3/4, -150, 1/50, -6]
        [⟨[1/4, -60, -1/25, 9], Rel.le, 0⟩,
         ⟨[1/2, -90, -1/50, 3], Rel.le, 0⟩,
         ⟨[0, 0, 1, 0], Rel.le, 1⟩]).result =
      Simplex.SolveResult.optimal [0, 0, 0, 0] 0 := by
  constructor <;> decide

/-- C4 amended: a run that exhausts the 100-iteration cap is silent —
the engine reports the last tableau's state through the SAME Optimal
result constructor used for a certified optimum (the displayed banner
treats every non-infeasible, non-unbounded last step as optimal); no
distinct non-convergence status reaches the caller. -/
theorem C4_cap_exceeded_reported_as_optimal (nv : ℕ) (ot : ObjType)
    (oc : List ℚ) (cs : List Constraint)
    (h : (Simplex.solve nv ot oc cs).exit = Simplex.ExitKind.fuelOut) :
    (Simplex.solve nv ot oc cs).result =
      Simplex.SolveResult.optimal
        (Simplex.extractSolution (Simplex.solve nv ot oc cs).final.tableau
          (Simplex.solve nv ot oc cs).final.basicVars
          (Simplex.buildTableau nv ot oc cs).totalVars nv)
        (if (Simplex.buildTableau nv ot oc cs).wasMinimization then
          -((Simplex.solve nv ot oc cs).final.zRow.getD
            (Simplex.buildTableau nv ot oc cs).totalVars 0)
         else
          (Simplex.solve nv ot oc cs).final.zRow.getD
            (Simplex.buildTableau nv ot oc cs).totalVars 0) := by
  revert h
  unfold Simplex.solve
  cases hek : Simplex.solveLoop (Simplex.buildTableau nv ot oc cs).artIdx
      (Simplex.buildTableau nv ot oc cs).totalVars 100
      ⟨(Simplex.buildTableau nv ot oc cs).tableau,
        (Simplex.buildTableau nv ot oc cs).zRow,
        (Simplex.buildTableau nv ot oc cs).basicVars,
        Simplex.hasNegativeRHS (Simplex.buildTableau nv ot oc cs).tableau⟩ with
  | mk ek s =>
    cases ek <;> simp [hek]

set_option maxRecDepth 20000 in
attribute [local semireducible] Rat.add Rat.mul Rat.sub Rat.inv in
/-- Witness for the amended C4 at Beale's cycling example. -/
theorem C4_cap_exceeded_reported_as_optimal_witness :
    (Simplex.solve 4 ObjType.max [3/4, -150, 1/50, -6]
        [⟨[1/4, -60, -1/25, 9], Rel.le, 0⟩,
         ⟨[1/2, -90, -1/50, 3], Rel.le, 0⟩,
         ⟨[0, 0, 1, 0], Rel.le, 1⟩]).exit = Simplex.ExitKind.fuelOut ∧
    (Simplex.solve 4 ObjType.max [3/4, -150, 1/50, -6]
        [⟨[1/4, -60, -1/25, 9], Rel.le, 0⟩,
         ⟨[1/2, -90, -1/50, 3], Rel.le, 0⟩,
         ⟨[0, 0, 1, 0], Rel.le, 1⟩]).result =
      Simplex.SolveResult.optimal
        (Simplex.extractSolution
          (Simplex.solve 4 ObjType.max [3/4, -150, 1/50, -6]
            [⟨[1/4, -60, -1/25, 9], Rel.le, 0⟩,
             ⟨[1/2, -90, -1/50, 3], Rel.le, 0⟩,
             ⟨[0, 0, 1, 0], Rel.le, 1⟩]).final.tableau
          (Simplex.solve 4 ObjType.max [3/4, -150, 1/50, -6]
            [⟨[1/4, -60, -1/25, 9], Rel.le, 0⟩,
             ⟨[1/2, -90, -1/50, 3], Rel.le, 0⟩,
             ⟨[0, 0, 1, 0], Rel.le, 1⟩]).final.basicVars
          (Simplex.buildTableau 4 ObjType.max [3/4, -150, 1/50, -6]
            [⟨[1/4, -60, -1/25, 9], Rel.le, 0⟩,
             ⟨[1/2, -90, -1/50, 3], Rel.le, 0⟩,
             ⟨[0, 0, 1, 0], Rel.le, 1⟩]).totalVars 4)
        (if (Simplex.buildTableau 4 ObjType.max [3/4, -150, 1/50, -6]
            [⟨[1/4, -60, -1/25, 9], Rel.le, 0⟩,
             ⟨[1/2, -90, -1/50, 3], Rel.le, 0⟩,
             ⟨[0, 0, 1, 0], Rel.le, 1⟩]).wasMinimization then
          -((Simplex.solve 4 ObjType.max [3/4, -150, 1/50, -6]
              [⟨[1/4, -60, -1/25, 9], Rel.le, 0⟩,
               ⟨[1/2, -90, -1/50, 3], Rel.le, 0⟩,
               ⟨[0, 0, 1, 0], Rel.le, 1⟩]).final.zRow.getD
            (Simplex.buildTableau 4 ObjType.max [3/4, -150, 1/50, -6]
              [⟨[1/4, -60, -1/25, 9], Rel.le, 0⟩,
               ⟨[1/2, -90, -1/50, 3], Rel.le, 0⟩,
               ⟨[0, 0, 1, 0], Rel.le, 1⟩]).totalVars 0)
         else
          (Simplex.solve 4 ObjType.max [3/4, -150, 1/50, -6]
              [⟨[1/4, -60, -1/25, 9], Rel.le, 0⟩,
               ⟨[1/2, -90, -1/50, 3], Rel.le, 0⟩,
               ⟨[0, 0, 1, 0], Rel.le, 1⟩]).final.zRow.getD
            (Simplex.buildTableau 4 ObjType.max [3/4, -150, 1/50, -6]
              [⟨[1/4, -60, -1/25, 9], Rel.le, 0⟩,
               ⟨[1/2, -90, -1/50, 3], Rel.le, 0⟩,
               ⟨[0, 0, 1, 0], Rel.le, 1⟩]).totalVars 0) := by
  have h : (Simplex.solve 4 ObjType.max [3/4, -150, 1/50, -6]
      [⟨[1/4, -60, -1/25, 9], Rel.le, 0⟩,
       ⟨[1/2, -90, -1/50, 3], Rel.le, 0⟩,
       ⟨[0, 0, 1, 0], Rel.le, 1⟩]).exit = Simplex.ExitKind.fuelOut := by
    decide
  exact ⟨h, C4_cap_exceeded_reported_as_optimal 4 ObjType.max [3/4, -150, 1/50, -6]
    [⟨[1/4, -60, -1/25, 9], Rel.le, 0⟩,
     ⟨[1/2, -90, -1/50, 3], Rel.le, 0⟩,
     ⟨[0, 0, 1, 0], Rel.le, 1⟩] h⟩

end ORToolkit
